import Mathlib

/-!
Verification of the binary codec (ctc/binary/formats.py) and the Gnosis Safe
signature protocol (ctc/protocols/gnosis_utils/gnosis_safe_transactions.py).

Byte strings are embedded as lists of naturals (one element per byte), hex
strings as lists of hex digits (one element per digit, value 0..15; the
leading 0x of a prefixed hex string is represented by the constructor tag),
and Python integers as Int.  Fallible operations return Except over an error
type mirroring the error taxonomy of the spec.
-/

set_option maxHeartbeats 1000000

namespace Ctc

instance {ε α : Type _} [DecidableEq ε] [DecidableEq α] :
    DecidableEq (Except ε α) := fun a b =>
  match a, b with
  | .ok x, .ok y =>
      if h : x = y then isTrue (by rw [h])
      else isFalse (fun hc => by cases hc; exact h rfl)
  | .error e, .error f =>
      if h : e = f then isTrue (by rw [h])
      else isFalse (fun hc => by cases hc; exact h rfl)
  | .ok _, .error _ => isFalse (fun hc => by cases hc)
  | .error _, .ok _ => isFalse (fun hc => by cases hc)

/-- The error taxonomy.  Each constructor corresponds to one raise site of the
source (or to the named error of the spec for that raise site). -/
inductive CodecError where
  | unrecognizedType
  | oddLength
  | lengthMismatch
  | negativeValue
  | overflowError
  | valueError
  | padTooSmall
  | invalidFormat
  | truncatedSignature
  | unknownSignatureType
  | missingInputs
  | unknownSignaturesFormat
deriving DecidableEq

/-- The four representations of a binary value: raw bytes, 0x-prefixed hex
string, bare hex string, unsigned (well, Python signed) integer.
For hex strings only the digits are stored; the constructor records whether
the Python string carried the leading 0x. -/
inductive BinaryValue where
  | bytes (bs : List Nat)
  | pre_hex (ds : List Nat)
  | raw_hex (ds : List Nat)
  | int_val (n : Int)
deriving DecidableEq

/-- The format names used by the source ('binary', 'prefix_hex', 'raw_hex',
'integer'); pre_hex embeds the source's prefix_hex. -/
inductive BinaryFormat where
  | binary
  | pre_hex
  | raw_hex
  | integer
deriving DecidableEq

/-- Big-endian value of a byte string, as computed by int.from_bytes(bs, big). -/
def bytesToNat (bs : List Nat) : Nat :=
  bs.foldl (fun acc b => acc * 256 + b) 0

/-- Value of a hex digit string, as computed by int(ds, 16). -/
def hexToNat (ds : List Nat) : Nat :=
  ds.foldl (fun acc d => acc * 16 + d) 0

/-- bytes.hex(): two hex digits per byte, big-endian within the byte. -/
def bytesToHex (bs : List Nat) : List Nat :=
  bs.flatMap (fun b => [b / 16, b % 16])

/-- bytes.fromhex on an even-length digit string: consecutive digit pairs
become bytes.  (A trailing lone digit cannot occur at the call site because
the source pads the string to even length first.) -/
def hexToBytes : List Nat → List Nat
  | d1 :: d2 :: rest => (16 * d1 + d2) :: hexToBytes rest
  | _ => []

/-- n.to_bytes(k, big): the k-byte big-endian encoding of n.  The caller
checks n < 256^k (Python raises OverflowError otherwise). -/
def natToBytes : Nat → Nat → List Nat
  | 0, _ => []
  | k + 1, n => natToBytes k (n / 256) ++ [n % 256]

/-- Python int.bit_length for a nonnegative integer, via a structurally
recursive halving count (the fuel argument only bounds the recursion depth;
n itself is always enough fuel). -/
def bitLengthFuel : Nat → Nat → Nat
  | 0, _ => 0
  | fuel + 1, n => if n = 0 then 0 else bitLengthFuel fuel (n / 2) + 1

/-- Python int.bit_length for a nonnegative integer. -/
def bitLength (n : Nat) : Nat := bitLengthFuel n n

/-- Embeds get_binary_format.  The source branches on the runtime type:
bytes, str with 0x, other str, int; the closed union makes the final
'could not detect format' raise unreachable. -/
def get_binary_format : BinaryValue → BinaryFormat
  | .bytes _ => .binary
  | .pre_hex _ => .pre_hex
  | .raw_hex _ => .raw_hex
  | .int_val _ => .integer

/-- Embeds get_binary_n_bytes.  For strings the Python length includes the
two characters of the 0x prefix, hence the +2 in the pre_hex case. -/
def get_binary_n_bytes : BinaryValue → Except CodecError Nat
  | .bytes bs => .ok bs.length
  | .pre_hex ds =>
      if (ds.length + 2) % 2 ≠ 0 then .error .oddLength
      else .ok ((ds.length + 2) / 2 - 1)
  | .raw_hex ds =>
      if ds.length % 2 ≠ 0 then .error .oddLength
      else .ok (ds.length / 2)
  | .int_val n =>
      if n < 0 then .error .negativeValue
      else .ok ((bitLength n.toNat + 7) / 8)

/-- The string branch of convert, after the prefix strip, without the length
check: dispatch on the output format.  int(data, 16) on an empty digit string
raises ValueError in Python, hence the isEmpty guard in the integer arm. -/
def convertHexCore (ds : List Nat) (fmt : BinaryFormat) :
    Except CodecError BinaryValue :=
  match fmt with
  | .pre_hex => .ok (.pre_hex ds)
  | .raw_hex => .ok (.raw_hex ds)
  | .binary =>
      let rd := if ds.length % 2 = 1 then 0 :: ds else ds
      .ok (.bytes (hexToBytes rd))
  | .integer =>
      if ds.isEmpty then .error .valueError else .ok (.int_val (hexToNat ds))

/-- The string branch of convert.  Python compares len(raw_data) / 2 (exact
division) against n_bytes, which holds exactly when the digit count is twice
n_bytes. -/
def convertHex (ds : List Nat) (fmt : BinaryFormat) (n_bytes : Option Nat) :
    Except CodecError BinaryValue :=
  match n_bytes with
  | some k => if ds.length ≠ 2 * k then .error .lengthMismatch
              else convertHexCore ds fmt
  | none => convertHexCore ds fmt

/-- The bytes branch of convert, without the length check. -/
def convertBytesCore (bs : List Nat) (fmt : BinaryFormat) :
    Except CodecError BinaryValue :=
  match fmt with
  | .binary => .ok (.bytes bs)
  | .pre_hex => .ok (.pre_hex (bytesToHex bs))
  | .raw_hex => .ok (.raw_hex (bytesToHex bs))
  | .integer => .ok (.int_val (bytesToNat bs))

/-- The bytes branch of convert. -/
def convertBytes (bs : List Nat) (fmt : BinaryFormat) (n_bytes : Option Nat) :
    Except CodecError BinaryValue :=
  match n_bytes with
  | some k => if bs.length ≠ k then .error .lengthMismatch
              else convertBytesCore bs fmt
  | none => convertBytesCore bs fmt

/-- data.to_bytes(k, big) with Python's OverflowError check. -/
def intToBytesChecked (n k : Nat) : Except CodecError (List Nat) :=
  if 256 ^ k ≤ n then .error .overflowError else .ok (natToBytes k n)

/-- as_hex.lstrip of the zero digits followed by the data == 0 special case,
as in the keep_leading_0 = False path of convert. -/
def stripLeadingHexZeros (n : Nat) (as_hex : List Nat) : List Nat :=
  let stripped := as_hex.dropWhile (fun d => d = 0)
  if n = 0 then [0] else stripped

/-- The hex rendering of an integer inside convert: materialize the bytes,
then hex digits, then optionally strip leading zero digits. -/
def intToHexDigits (n k : Nat) (keep : Bool) : Except CodecError (List Nat) :=
  (intToBytesChecked n k).map (fun bs =>
    let as_hex := bytesToHex bs
    if keep then as_hex else stripLeadingHexZeros n as_hex)

/-- The integer branch of convert: negative values are rejected first,
integer to integer is the identity, otherwise a byte length is materialized
from n_bytes or the minimum byte length of the value. -/
def convertInt (n : Int) (fmt : BinaryFormat) (n_bytes : Option Nat)
    (keep_leading_0 : Option Bool) : Except CodecError BinaryValue :=
  if n < 0 then .error .negativeValue
  else
    match fmt with
    | .integer => .ok (.int_val n)
    | .binary =>
        let k := n_bytes.getD ((bitLength n.toNat + 7) / 8)
        (intToBytesChecked n.toNat k).map (fun bs => .bytes bs)
    | .pre_hex =>
        let keep := keep_leading_0.getD true
        let k := n_bytes.getD ((bitLength n.toNat + 7) / 8)
        (intToHexDigits n.toNat k keep).map (fun ds => .pre_hex ds)
    | .raw_hex =>
        let keep := keep_leading_0.getD true
        let k := n_bytes.getD ((bitLength n.toNat + 7) / 8)
        (intToHexDigits n.toNat k keep).map (fun ds => .raw_hex ds)

/-- Embeds convert.  output_format defaults to prefix_hex when None.  The
two string-typed representations share one branch in the source (only the
prefix strip differs, which the representation already performs). -/
def convert (data : BinaryValue) (output_format : Option BinaryFormat)
    (n_bytes : Option Nat) (keep_leading_0 : Option Bool) :
    Except CodecError BinaryValue :=
  let fmt := output_format.getD .pre_hex
  match data with
  | .pre_hex ds => convertHex ds fmt n_bytes
  | .raw_hex ds => convertHex ds fmt n_bytes
  | .bytes bs => convertBytes bs fmt n_bytes
  | .int_val n => convertInt n fmt n_bytes keep_leading_0

/-- Pad side of add_binary_pad. -/
inductive PadSide where
  | left
  | right
deriving DecidableEq

/-- Python bytes(k): a byte string of k zero bytes.  In particular
bytes(0) is the EMPTY byte string. -/
def pyBytes (k : Nat) : List Nat := List.replicate k 0

/-- Python sequence repetition s * k. -/
def pyRepeat (s : List Nat) (k : Nat) : List Nat :=
  (List.replicate k s).flatten

/-- Embeds add_binary_pad.  Defaults: side left, size 32.  The byte branch
multiplies bytes(0) — the empty byte string — by pad_bytes, exactly as the
source writes it; the integer format falls through to the final
'invalid binary format' raise. -/
def add_binary_pad (data : BinaryValue) (pad_side : Option PadSide)
    (padded_size : Option Nat) : Except CodecError BinaryValue :=
  let side := pad_side.getD .left
  let size := padded_size.getD 32
  match get_binary_n_bytes data with
  | .error e => .error e
  | .ok data_bytes =>
    if size < data_bytes then .error .padTooSmall
    else
      let pad_bytes := size - data_bytes
      match data with
      | .bytes bs =>
          match side with
          | .left => .ok (.bytes (pyRepeat (pyBytes 0) pad_bytes ++ bs))
          | .right => .ok (.bytes (bs ++ pyRepeat (pyBytes 0) pad_bytes))
      | .pre_hex ds =>
          match side with
          | .left => .ok (.pre_hex (List.replicate (2 * pad_bytes) 0 ++ ds))
          | .right => .ok (.pre_hex (ds ++ List.replicate (2 * pad_bytes) 0))
      | .raw_hex ds =>
          match side with
          | .left => .ok (.raw_hex (List.replicate (2 * pad_bytes) 0 ++ ds))
          | .right => .ok (.raw_hex (ds ++ List.replicate (2 * pad_bytes) 0))
      | .int_val _ => .error .invalidFormat

/-!
Gnosis Safe signature protocol
(ctc/protocols/gnosis_utils/gnosis_safe_transactions.py).
-/

/-- One parsed signature entry of parse_safe_signatures.  The source builds a
dict with a 'type' key; the closed variant makes the later 'unknown signature
type' string check of the resolver a compile-time guarantee.  The signature,
verifier and validator fields hold the hex digits of the prefix_hex strings
the source stores. -/
inductive ParsedSig where
  | ecdsa (signature : List Nat) (r : Nat) (s : Nat) (v : Nat)
  | eth_sign (signature : List Nat) (r : Nat) (s : Nat) (v : Nat)
  | eip1271 (signature : List Nat) (verifier : List Nat) (position : Nat)
  | prevalidated (signature : List Nat) (validator : List Nat)
deriving DecidableEq

/-- The branch of parse_safe_signatures on signature[-1] for one 65-byte
record.  Slices follow the source: signature[:32], signature[32:64], and
signature[:32][-20:] (the low 20 bytes of the first 32-byte word).  The calls
binary.convert(bs, 'integer') and binary.convert(bs, 'prefix_hex') of the
source are written as bytesToNat and bytesToHex; lemmas
convert_bytes_to_integer and convert_bytes_to_pre_hex record the agreement. -/
def classify_signature (signature : List Nat) : Except CodecError ParsedSig :=
  let signature_type := signature.getLastD 0
  if 31 > signature_type ∧ signature_type > 26 then
    .ok (.ecdsa (bytesToHex signature)
      (bytesToNat (signature.take 32))
      (bytesToNat ((signature.drop 32).take 32))
      signature_type)
  else if signature_type > 30 then
    .ok (.eth_sign (bytesToHex signature)
      (bytesToNat (signature.take 32))
      (bytesToNat ((signature.drop 32).take 32))
      (signature_type - 4))
  else if signature_type = 0 then
    let w := signature.take 32
    .ok (.eip1271 (bytesToHex signature)
      (bytesToHex (w.drop (w.length - 20)))
      (bytesToNat ((signature.drop 32).take 32)))
  else if signature_type = 1 then
    let w := signature.take 32
    .ok (.prevalidated (bytesToHex signature)
      (bytesToHex (w.drop (w.length - 20))))
  else .error .unknownSignatureType

/-- min of a nonempty Python list (the empty case is guarded at the call
site by the len(...) > 0 test). -/
def listMin : List Nat → Nat
  | [] => 0
  | x :: xs => xs.foldl Nat.min x

/-- The update of eip_1271_positions in one loop iteration: an EIP-1271
record appends its position field, every other record leaves the list
unchanged. -/
def updatePositions (eip_1271_positions : List Nat) : ParsedSig → List Nat
  | .eip1271 _ _ p => eip_1271_positions ++ [p]
  | _ => eip_1271_positions

/-- The while-True loop of parse_safe_signatures.  Each iteration slices the
next 65 bytes off the blob (the assert len(signature) == 65 of the source is
the truncation failure), classifies them, records the position of an EIP-1271
record via updatePositions, and stops when the blob is exhausted or when the
bytes consumed, (s + 1) * 65, reach the smallest recorded EIP-1271 position.
(The source also accumulates eip_1271_indices, which no later code reads; it
is omitted.) -/
def parseLoop (as_bytes : List Nat) (s : Nat) (eip_1271_positions : List Nat)
    (acc : List ParsedSig) : Except CodecError (List ParsedSig) :=
  if h65 : (as_bytes.take 65).length = 65 then
    match classify_signature (as_bytes.take 65) with
    | .error e => .error e
    | .ok parsed =>
      if (as_bytes.drop 65).length = 0 then .ok (acc ++ [parsed])
      else if updatePositions eip_1271_positions parsed ≠ [] ∧
          (s + 1) * 65 ≥ listMin (updatePositions eip_1271_positions parsed)
        then .ok (acc ++ [parsed])
      else parseLoop (as_bytes.drop 65) (s + 1)
        (updatePositions eip_1271_positions parsed) (acc ++ [parsed])
  else .error .truncatedSignature
termination_by as_bytes.length
decreasing_by
  simp only [List.length_take, List.length_drop] at *
  omega

/-- Embeds parse_safe_signatures: convert the blob to bytes, then run the
record loop with s = 0, no known EIP-1271 positions, and an empty result. -/
def parse_safe_signatures (signatures : BinaryValue) :
    Except CodecError (List ParsedSig) :=
  match convert signatures (some .binary) none none with
  | .error e => .error e
  | .ok (.bytes bs) => parseLoop bs 0 [] []
  | .ok _ => .error .invalidFormat

/-- The signatures argument of _get_safe_transaction_signers: either an
already-parsed list (Python list input) or a raw value to be parsed
(str or bytes input; an integer input falls through to the
'unknown signatures format' raise). -/
inductive SignaturesInput where
  | parsed (sigs : List ParsedSig)
  | blob (data : BinaryValue)

/-- The per-record dispatch of the signer loop, written out once: ECDSA-like
records call the external recovery primitive with (message_hash, (v, r, s));
EIP-1271 and prevalidated records yield the embedded address directly. -/
def resolveRecord (recover : BinaryValue → Nat × Nat × Nat → List Nat)
    (message_hash : BinaryValue) : ParsedSig → List Nat
  | .ecdsa _ r s v => recover message_hash (v, r, s)
  | .eth_sign _ r s v => recover message_hash (v, r, s)
  | .eip1271 _ verifier _ => verifier
  | .prevalidated _ validator => validator

/-- The signer accumulation loop of _get_safe_transaction_signers. -/
def signersLoop (recover : BinaryValue → Nat × Nat × Nat → List Nat)
    (message_hash : BinaryValue) :
    List ParsedSig → List (List Nat) → List (List Nat)
  | [], signers => signers
  | sig :: rest, signers =>
      signersLoop recover message_hash rest
        (signers ++ [resolveRecord recover message_hash sig])

/-- The str-or-bytes path of _get_safe_transaction_signers: parse the blob
and resolve each record. -/
def resolve_blob (recover : BinaryValue → Nat × Nat × Nat → List Nat)
    (safe_transaction_hash : BinaryValue) (d : BinaryValue) :
    Except CodecError (List (List Nat)) :=
  match parse_safe_signatures d with
  | .error e => .error e
  | .ok sigs => .ok (signersLoop recover safe_transaction_hash sigs [])

/-- Embeds _get_safe_transaction_signers.  The external
binary.recover_signer_address primitive is a parameter; addresses are the
hex-digit lists of the prefix_hex strings the source handles. -/
def get_safe_transaction_signers_core
    (recover : BinaryValue → Nat × Nat × Nat → List Nat)
    (signatures : SignaturesInput) (safe_transaction_hash : BinaryValue) :
    Except CodecError (List (List Nat)) :=
  match signatures with
  | .parsed sigs => .ok (signersLoop recover safe_transaction_hash sigs [])
  | .blob data =>
      match data with
      | .int_val _ => .error .unknownSignaturesFormat
      | d => resolve_blob recover safe_transaction_hash d

/-- Modelled from the spec: gnosis_safe_spec.safe_transaction_keys lives in
the gnosis_safe_spec module, which is not among the sources; the spec lists
the SafeTransaction fields as to, value, data, operation, the gas
parameters, and nonce, per the Safe contract's EIP-712 struct type. -/
def safe_transaction_keys : List String :=
  ["to", "value", "data", "operation", "safe_tx_gas", "base_gas",
   "gas_price", "gas_token", "refund_receiver", "nonce"]

/-- Embeds get_safe_transaction_from_call_data.  The external ABI decode
primitive is the parameter decode_call_data, giving the named_parameters
mapping of the decoded call; the transaction dict is the key-value list built
from every safe transaction key except nonce, then nonce is set to the
caller-supplied value. -/
def get_safe_transaction_from_call_data {V : Type}
    (decode_call_data : BinaryValue → String → V)
    (call_data : BinaryValue) (nonce : V) : List (String × V) :=
  let parameters := decode_call_data call_data
  let safe_transaction :=
    (safe_transaction_keys.filter (fun key => key != "nonce")).map
      (fun key => (key, parameters key))
  safe_transaction ++ [("nonce", nonce)]

/-- Embeds get_safe_transaction_signers.  External collaborators are
parameters: the ECDSA recovery primitive, the call-data decode used on the
signatures-from-call-data path, the call-data decode building a transaction,
and the EIP-712 hash of hash_safe_transaction.  The safe_transaction
argument of the source is accepted and, as in the source, never read (it is
reassigned on the hash-building path). -/
def get_safe_transaction_signers {SafeTx : Type}
    (recover : BinaryValue → Nat × Nat × Nat → List Nat)
    (decode_signatures : Option BinaryValue → List ParsedSig)
    (decode_transaction : BinaryValue → Nat → SafeTx)
    (hash_transaction : SafeTx → Nat → BinaryValue → BinaryValue)
    (signatures : Option SignaturesInput)
    (safe_transaction_hash : Option BinaryValue)
    (safe_transaction : Option SafeTx)
    (chain_id : Option Nat)
    (safe_address : Option BinaryValue)
    (call_data : Option BinaryValue)
    (nonce : Option Nat) :
    Except CodecError (List (List Nat)) :=
  let sigs : SignaturesInput :=
    match signatures with
    | some s => s
    | none => .parsed (decode_signatures call_data)
  match safe_transaction_hash with
  | some h => get_safe_transaction_signers_core recover sigs h
  | none =>
      match call_data, nonce, chain_id, safe_address with
      | some cd, some no, some ci, some sa =>
          let tx := decode_transaction cd no
          let h := hash_transaction tx ci sa
          get_safe_transaction_signers_core recover sigs h
      | _, _, _, _ => .error .missingInputs

/-- A well-formed BinaryValue: bytes are below 256, hex digits below 16,
integers nonnegative. -/
def ValidBinaryValue : BinaryValue → Prop
  | .bytes bs => ∀ b ∈ bs, b < 256
  | .pre_hex ds => ∀ d ∈ ds, d < 16
  | .raw_hex ds => ∀ d ∈ ds, d < 16
  | .int_val n => 0 ≤ n

instance : DecidablePred ValidBinaryValue := fun v =>
  match v with
  | .bytes bs => inferInstanceAs (Decidable (∀ b ∈ bs, b < 256))
  | .pre_hex ds => inferInstanceAs (Decidable (∀ d ∈ ds, d < 16))
  | .raw_hex ds => inferInstanceAs (Decidable (∀ d ∈ ds, d < 16))
  | .int_val n => inferInstanceAs (Decidable (0 ≤ n))

/-!  Helper lemmas. -/

/-- The convert call binary.convert(bs, 'integer') on a byte string is the
big-endian integer value. -/
theorem convert_bytes_to_integer (bs : List Nat) :
    convert (.bytes bs) (some .integer) none none = .ok (.int_val (bytesToNat bs)) := rfl

/-- The convert call binary.convert(bs, 'prefix_hex') on a byte string is its
hex rendering. -/
theorem convert_bytes_to_pre_hex (bs : List Nat) :
    convert (.bytes bs) (some .pre_hex) none none = .ok (.pre_hex (bytesToHex bs)) := rfl

theorem bytesToNat_concat (bs : List Nat) (b : Nat) :
    bytesToNat (bs ++ [b]) = bytesToNat bs * 256 + b := by
  simp [bytesToNat, List.foldl_append]

/-- Decoding the k-byte big-endian encoding of n gives n back, provided n
fits in k bytes. -/
theorem bytesToNat_natToBytes (k : Nat) :
    ∀ n : Nat, n < 256 ^ k → bytesToNat (natToBytes k n) = n := by
  induction k with
  | zero =>
      intro n h
      simp [natToBytes, bytesToNat]
      omega
  | succ k ih =>
      intro n h
      have hdiv : n / 256 < 256 ^ k := by
        rw [Nat.div_lt_iff_lt_mul (by norm_num)]
        calc n < 256 ^ (k + 1) := h
          _ = 256 ^ k * 256 := by rw [pow_succ]
      rw [natToBytes, bytesToNat_concat, ih (n / 256) hdiv]
      omega

/-- Any n no larger than the fuel is below 2 to its counted bit length. -/
theorem lt_two_pow_bitLengthFuel (fuel : Nat) :
    ∀ n : Nat, n ≤ fuel → n < 2 ^ bitLengthFuel fuel n := by
  induction fuel with
  | zero =>
      intro n hn
      have h0 : n = 0 := by omega
      subst h0
      simp [bitLengthFuel]
  | succ fuel ih =>
      intro n hn
      by_cases h0 : n = 0
      · subst h0
        simp [bitLengthFuel]
      · have hdiv : n / 2 ≤ fuel := by omega
        have hlt := ih (n / 2) hdiv
        have hpow : 2 ^ (bitLengthFuel fuel (n / 2) + 1)
            = 2 ^ bitLengthFuel fuel (n / 2) * 2 := pow_succ 2 _
        simp only [bitLengthFuel, h0, if_false]
        omega

/-- Every nonnegative integer fits in its minimum byte length,
(bit_length + 7) / 8 bytes. -/
theorem lt_pow_min_byte_length (n : Nat) : n < 256 ^ ((bitLength n + 7) / 8) := by
  have h1 : n < 2 ^ bitLength n := lt_two_pow_bitLengthFuel n n le_rfl
  have h2 : bitLength n ≤ 8 * ((bitLength n + 7) / 8) := by omega
  calc n < 2 ^ bitLength n := h1
    _ ≤ 2 ^ (8 * ((bitLength n + 7) / 8)) := Nat.pow_le_pow_right (by norm_num) h2
    _ = 256 ^ ((bitLength n + 7) / 8) := by
        rw [pow_mul]
        norm_num

/-!  Claim theorems. -/

/-- C7: format idempotence — converting a valid BinaryValue to its own
detected format returns it unchanged. -/
theorem claim_C7_format_idempotence (x : BinaryValue) (h : ValidBinaryValue x) :
    convert x (some (get_binary_format x)) none none = .ok x := by
  cases x with
  | bytes bs => rfl
  | pre_hex ds => rfl
  | raw_hex ds => rfl
  | int_val n =>
      have h0 : (0 : Int) ≤ n := h
      have hn : ¬ n < 0 := not_lt.mpr h0
      simp [convert, get_binary_format, convertInt, hn]

/-- Witness for C7 at the integer 5. -/
theorem claim_C7_format_idempotence_witness :
    ValidBinaryValue (.int_val 5) ∧
    convert (.int_val 5) (some (get_binary_format (.int_val 5))) none none
      = .ok (.int_val 5) :=
  ⟨by decide, claim_C7_format_idempotence (.int_val 5) (by decide)⟩

/-- C10: the integer 0 converts to prefix_hex with default arguments as the
bare prefix 0x (zero hex digits), because its minimum byte length is 0; the
single-digit rendering 0x0 appears only with keep_leading_0 = False. -/
theorem claim_C10_zero_to_hex :
    get_binary_n_bytes (.int_val 0) = .ok 0 ∧
    convert (.int_val 0) (some .pre_hex) none none = .ok (.pre_hex []) ∧
    convert (.int_val 0) (some .pre_hex) none (some false) = .ok (.pre_hex [0]) := by
  decide

/-- C4 (code bug): padding a raw-bytes value adds nothing — the source
multiplies bytes(0), the empty byte string, by the pad width — so the padded
byte length stays 1 instead of becoming 2; an integer input reaches the
'invalid binary format' raise even though its format was detected; the two
hex formats do pad correctly. -/
theorem claim_C4_pad_divergence :
    add_binary_pad (.bytes [1]) (some .left) (some 2) = .ok (.bytes [1]) ∧
    get_binary_n_bytes (.bytes [1]) = .ok 1 ∧
    add_binary_pad (.int_val 5) (some .left) (some 32) = .error .invalidFormat ∧
    add_binary_pad (.raw_hex [0, 1]) (some .left) (some 2)
      = .ok (.raw_hex [0, 0, 0, 1]) ∧
    add_binary_pad (.pre_hex [0, 1]) (some .left) (some 2)
      = .ok (.pre_hex [0, 0, 0, 1]) := by
  decide

/-- C6 counterexample: the hex string abc (digits 10, 11, 12 — an odd digit
count) is accepted without error by convert to raw_hex (returned unchanged)
and by convert to integer, so the hex-to-binary auto-pad is NOT the only
place an odd-length hex string is tolerated. -/
theorem claim_C6_counterexample :
    get_binary_n_bytes (.raw_hex [10, 11, 12]) = .error .oddLength ∧
    convert (.raw_hex [10, 11, 12]) (some .raw_hex) none none
      = .ok (.raw_hex [10, 11, 12]) ∧
    convert (.raw_hex [10, 11, 12]) (some .pre_hex) none none
      = .ok (.pre_hex [10, 11, 12]) ∧
    convert (.raw_hex [10, 11, 12]) (some .integer) none none
      = .ok (.int_val 2748) := by
  decide

/-- C6 amended: byte_length on an odd-digit hex string fails with
OddLengthError (in either hex format), while convert of the same string to
binary succeeds by left-padding a single zero digit before decoding; the
auto-pad is the only place an odd-length string is decoded to bytes, but
hex-to-hex and hex-to-integer conversions also accept odd-length strings
without error. -/
theorem claim_C6_amended_odd_hex (ds : List Nat) (h : ds.length % 2 = 1) :
    get_binary_n_bytes (.raw_hex ds) = .error .oddLength ∧
    get_binary_n_bytes (.pre_hex ds) = .error .oddLength ∧
    convert (.raw_hex ds) (some .binary) none none
      = .ok (.bytes (hexToBytes (0 :: ds))) ∧
    convert (.pre_hex ds) (some .binary) none none
      = .ok (.bytes (hexToBytes (0 :: ds))) := by
  have h2 : (ds.length + 2) % 2 ≠ 0 := by omega
  have h1 : ds.length % 2 ≠ 0 := by omega
  refine ⟨?_, ?_, ?_, ?_⟩
  · simp [get_binary_n_bytes, h]
  · simp [get_binary_n_bytes, h]
  · simp [convert, convertHex, convertHexCore, h]
  · simp [convert, convertHex, convertHexCore, h]

/-- C5: for every nonnegative integer v and every byte length n at least the
minimum byte length of v (as computed by the code's byte_length), converting
v to binary with expected byte length n succeeds, and converting the result
back to integer returns v. -/
theorem claim_C5_int_binary_roundtrip (v n m : Nat)
    (hm : get_binary_n_bytes (.int_val v) = .ok m) (hn : m ≤ n) :
    convert (.int_val v) (some .binary) (some n) none
      = .ok (.bytes (natToBytes n v)) ∧
    convert (.bytes (natToBytes n v)) (some .integer) none none
      = .ok (.int_val v) := by
  have hneg : ¬ ((v : Int) < 0) := by omega
  have hmv : m = (bitLength v + 7) / 8 := by
    simp [get_binary_n_bytes, hneg] at hm
    omega
  have hfit : v < 256 ^ n := by
    calc v < 256 ^ ((bitLength v + 7) / 8) := lt_pow_min_byte_length v
      _ ≤ 256 ^ n := Nat.pow_le_pow_right (by norm_num) (by omega)
  constructor
  · simp [convert, convertInt, hneg, intToBytesChecked, Nat.not_le.mpr hfit,
      Except.map]
  · rw [convert_bytes_to_integer, bytesToNat_natToBytes n v hfit]

/-- Witness for C5 at v = 255, n = 1. -/
theorem claim_C5_int_binary_roundtrip_witness :
    get_binary_n_bytes (.int_val (255 : Nat)) = .ok 1 ∧ 1 ≤ 1 ∧
    (convert (.int_val (255 : Nat)) (some .binary) (some 1) none
      = .ok (.bytes (natToBytes 1 255)) ∧
     convert (.bytes (natToBytes 1 255)) (some .integer) none none
      = .ok (.int_val (255 : Nat))) :=
  ⟨by decide, le_refl 1, claim_C5_int_binary_roundtrip 255 1 1 (by decide) (le_refl 1)⟩

/-- Witness for C6 amended at the digits of abc. -/
theorem claim_C6_amended_odd_hex_witness :
    [10, 11, 12].length % 2 = 1 ∧
    (get_binary_n_bytes (.raw_hex [10, 11, 12]) = .error .oddLength ∧
     get_binary_n_bytes (.pre_hex [10, 11, 12]) = .error .oddLength ∧
     convert (.raw_hex [10, 11, 12]) (some .binary) none none
       = .ok (.bytes (hexToBytes (0 :: [10, 11, 12]))) ∧
     convert (.pre_hex [10, 11, 12]) (some .binary) none none
       = .ok (.bytes (hexToBytes (0 :: [10, 11, 12])))) :=
  ⟨by decide, claim_C6_amended_odd_hex [10, 11, 12] (by decide)⟩

/-- C1: classification of a 65-byte signature record by its trailing type
byte — 27..30 is ecdsa with v the type byte; 31 and above is eth_sign with v
the type byte minus 4; 0 is eip1271 with the verifier the low 20 bytes of the
first word and the position the second word; 1 is prevalidated; 2..26 fails
with UnknownSignatureTypeError. -/
theorem claim_C1_signature_classification (sig : List Nat) (h : sig.length = 65) :
    (27 ≤ sig.getLastD 0 ∧ sig.getLastD 0 ≤ 30 →
      classify_signature sig = .ok (.ecdsa (bytesToHex sig)
        (bytesToNat (sig.take 32)) (bytesToNat ((sig.drop 32).take 32))
        (sig.getLastD 0))) ∧
    (31 ≤ sig.getLastD 0 →
      classify_signature sig = .ok (.eth_sign (bytesToHex sig)
        (bytesToNat (sig.take 32)) (bytesToNat ((sig.drop 32).take 32))
        (sig.getLastD 0 - 4))) ∧
    (sig.getLastD 0 = 0 →
      classify_signature sig = .ok (.eip1271 (bytesToHex sig)
        (bytesToHex ((sig.take 32).drop 12))
        (bytesToNat ((sig.drop 32).take 32)))) ∧
    (sig.getLastD 0 = 1 →
      classify_signature sig = .ok (.prevalidated (bytesToHex sig)
        (bytesToHex ((sig.take 32).drop 12)))) ∧
    (2 ≤ sig.getLastD 0 ∧ sig.getLastD 0 ≤ 26 →
      classify_signature sig = .error .unknownSignatureType) := by
  have hw : (sig.take 32).length = 32 := by
    simp [List.length_take, h]
  refine ⟨?_, ?_, ?_, ?_, ?_⟩
  all_goals intro hc
  all_goals simp only [classify_signature]
  · rw [if_pos (by omega)]
  · rw [if_neg (by omega), if_pos (by omega)]
  · rw [if_neg (by omega), if_neg (by omega), if_pos (by omega)]
    simp [hw]
  · rw [if_neg (by omega), if_neg (by omega), if_neg (by omega),
      if_pos (by omega)]
    simp [hw]
  · rw [if_neg (by omega), if_neg (by omega), if_neg (by omega),
      if_neg (by omega)]

/-- Witness for C1: the spec's concrete case, a record of 64 zero bytes
ending in type byte 28, classifies as ecdsa with v = 28. -/
theorem claim_C1_signature_classification_witness :
    (List.replicate 64 0 ++ [28]).length = 65 ∧
    classify_signature (List.replicate 64 0 ++ [28])
      = .ok (.ecdsa (bytesToHex (List.replicate 64 0 ++ [28]))
          (bytesToNat ((List.replicate 64 0 ++ [28]).take 32))
          (bytesToNat (((List.replicate 64 0 ++ [28]).drop 32).take 32))
          ((List.replicate 64 0 ++ [28]).getLastD 0)) :=
  ⟨by decide,
    (claim_C1_signature_classification _ (by decide)).1 (by decide)⟩

/-- The accumulating signer loop produces the accumulated prefix followed by
one resolved address per record, in order. -/
theorem signersLoop_eq_map (recover : BinaryValue → Nat × Nat × Nat → List Nat)
    (message_hash : BinaryValue) (sigs : List ParsedSig)
    (acc : List (List Nat)) :
    signersLoop recover message_hash sigs acc
      = acc ++ sigs.map (resolveRecord recover message_hash) := by
  induction sigs generalizing acc with
  | nil => simp [signersLoop]
  | cons a l ih =>
      rw [signersLoop, ih]
      simp

/-- C3: the resolver returns exactly one address per classified record, in
input order — the recovery primitive's result at (transaction_hash, v, r, s)
for ecdsa and eth_sign records, the verifier field directly for eip1271
records (quantification over every recovery function shows the verifying
contract is never consulted), and the validator field directly for
prevalidated records. -/
theorem claim_C3_signer_resolution
    (recover : BinaryValue → Nat × Nat × Nat → List Nat)
    (transaction_hash : BinaryValue) (records : List ParsedSig) :
    get_safe_transaction_signers_core recover (.parsed records) transaction_hash
      = .ok (records.map (fun record =>
          match record with
          | .ecdsa _ r s v => recover transaction_hash (v, r, s)
          | .eth_sign _ r s v => recover transaction_hash (v, r, s)
          | .eip1271 _ verifier _ => verifier
          | .prevalidated _ validator => validator)) := by
  rw [get_safe_transaction_signers_core, signersLoop_eq_map]
  rfl

/-- C9: the transaction built from call data binds every safe transaction key
other than nonce to the externally decoded parameter of the same name, and
binds nonce to the caller-supplied value, whatever the decode returns. -/
theorem claim_C9_call_data_transaction {V : Type}
    (decode_call_data : BinaryValue → String → V)
    (call_data : BinaryValue) (nonce : V) :
    (∀ key ∈ safe_transaction_keys, key ≠ "nonce" →
      (get_safe_transaction_from_call_data decode_call_data call_data
        nonce).lookup key = some (decode_call_data call_data key)) ∧
    (get_safe_transaction_from_call_data decode_call_data call_data
      nonce).lookup ("nonce") = some nonce := by
  constructor
  · intro key hk hne
    fin_cases hk <;> simp_all [get_safe_transaction_from_call_data,
      safe_transaction_keys, List.lookup]
  · simp [get_safe_transaction_from_call_data, safe_transaction_keys,
      List.lookup]

/-- Witness for C9 with a constant decode and nonce 7. -/
theorem claim_C9_call_data_transaction_witness :
    ("to" ∈ safe_transaction_keys ∧ "to" ≠ "nonce") ∧
    (get_safe_transaction_from_call_data (fun _ _ => (0 : Nat)) (.bytes [])
      7).lookup ("to") = some 0 ∧
    (get_safe_transaction_from_call_data (fun _ _ => (0 : Nat)) (.bytes [])
      7).lookup ("nonce") = some 7 :=
  ⟨⟨by decide, by decide⟩,
   (claim_C9_call_data_transaction (fun _ _ => (0 : Nat)) (.bytes []) 7).1
     ("to") (by decide) (by decide),
   (claim_C9_call_data_transaction (fun _ _ => (0 : Nat)) (.bytes []) 7).2⟩

/-- The only error classification raises is the unknown-signature-type one. -/
theorem classify_signature_error_eq (sig : List Nat) (e : CodecError)
    (h : classify_signature sig = .error e) : e = .unknownSignatureType := by
  simp only [classify_signature] at h
  split_ifs at h <;> simp_all

theorem convertHexCore_ne_missingInputs (ds : List Nat) (fmt : BinaryFormat) :
    convertHexCore ds fmt ≠ .error .missingInputs := by
  cases fmt with
  | binary => simp [convertHexCore]
  | pre_hex => simp [convertHexCore]
  | raw_hex => simp [convertHexCore]
  | integer =>
      simp only [convertHexCore]
      split_ifs <;> simp

theorem convertHex_ne_missingInputs (ds : List Nat) (fmt : BinaryFormat)
    (nb : Option Nat) : convertHex ds fmt nb ≠ .error .missingInputs := by
  cases nb with
  | none => exact convertHexCore_ne_missingInputs ds fmt
  | some k =>
      simp only [convertHex]
      split_ifs
      · simp
      · exact convertHexCore_ne_missingInputs ds fmt

theorem convertBytesCore_ne_missingInputs (bs : List Nat)
    (fmt : BinaryFormat) : convertBytesCore bs fmt ≠ .error .missingInputs := by
  cases fmt <;> simp [convertBytesCore]

theorem convertBytes_ne_missingInputs (bs : List Nat) (fmt : BinaryFormat)
    (nb : Option Nat) : convertBytes bs fmt nb ≠ .error .missingInputs := by
  cases nb with
  | none => exact convertBytesCore_ne_missingInputs bs fmt
  | some k =>
      simp only [convertBytes]
      split_ifs
      · simp
      · exact convertBytesCore_ne_missingInputs bs fmt

theorem convertInt_ne_missingInputs (n : Int) (fmt : BinaryFormat)
    (nb : Option Nat) (k : Option Bool) :
    convertInt n fmt nb k ≠ .error .missingInputs := by
  cases fmt <;>
    simp only [convertInt, intToBytesChecked, intToHexDigits] <;>
    split_ifs <;> simp [Except.map]

/-- convert never raises the missing-inputs error (its errors are the length,
sign, value and overflow ones). -/
theorem convert_ne_missingInputs (x : BinaryValue) (fmt : Option BinaryFormat)
    (nb : Option Nat) (k : Option Bool) :
    convert x fmt nb k ≠ .error .missingInputs := by
  cases x with
  | bytes bs => exact convertBytes_ne_missingInputs bs _ nb
  | pre_hex ds => exact convertHex_ne_missingInputs ds _ nb
  | raw_hex ds => exact convertHex_ne_missingInputs ds _ nb
  | int_val n => exact convertInt_ne_missingInputs n _ nb k

/-- The record loop never raises the missing-inputs error (its errors are
truncation and unknown signature type). -/
theorem parseLoop_ne_missingInputs (as_bytes : List Nat) (s : Nat)
    (ps : List Nat) (acc : List ParsedSig) :
    parseLoop as_bytes s ps acc ≠ .error .missingInputs := by
  induction as_bytes, s, ps, acc using parseLoop.induct with
  | case1 as_bytes s ps acc h65 e hc =>
      rw [parseLoop]
      simp only [dif_pos h65, hc]
      have he := classify_signature_error_eq _ _ hc
      subst he
      simp
  | case2 as_bytes s ps acc h65 parsed hc hrest =>
      rw [parseLoop]
      simp only [dif_pos h65, hc]
      simp [hrest]
  | case3 as_bytes s ps acc h65 parsed hc hrest hcond =>
      rw [parseLoop]
      simp only [dif_pos h65, hc]
      rw [if_neg hrest, if_pos hcond]
      simp
  | case4 as_bytes s ps acc h65 parsed hc hrest hcond ih =>
      rw [parseLoop]
      simp only [dif_pos h65, hc]
      rw [if_neg hrest, if_neg hcond]
      exact ih
  | case5 as_bytes s ps acc h65 =>
      rw [parseLoop, dif_neg h65]
      simp

/-- parse_safe_signatures never raises the missing-inputs error. -/
theorem parse_safe_signatures_ne_missingInputs (d : BinaryValue) :
    parse_safe_signatures d ≠ .error .missingInputs := by
  intro hbad
  unfold parse_safe_signatures at hbad
  split at hbad
  · rename_i e heq
    injection hbad with h1
    subst h1
    exact convert_ne_missingInputs _ _ _ _ heq
  · rename_i bs heq
    exact parseLoop_ne_missingInputs _ _ _ _ hbad
  · simp at hbad

/-- The blob path of the resolver never raises the missing-inputs error. -/
theorem resolve_blob_ne_missingInputs
    (recover : BinaryValue → Nat × Nat × Nat → List Nat)
    (hsh d : BinaryValue) :
    resolve_blob recover hsh d ≠ .error .missingInputs := by
  intro hbad
  unfold resolve_blob at hbad
  split at hbad
  · rename_i e heq
    injection hbad with h1
    subst h1
    exact parse_safe_signatures_ne_missingInputs _ heq
  · simp at hbad

/-- The signer resolver never raises the missing-inputs error. -/
theorem core_ne_missingInputs
    (recover : BinaryValue → Nat × Nat × Nat → List Nat)
    (sigs : SignaturesInput) (h : BinaryValue) :
    get_safe_transaction_signers_core recover sigs h
      ≠ .error .missingInputs := by
  intro hbad
  unfold get_safe_transaction_signers_core at hbad
  rcases sigs with sl | d
  · simp at hbad
  · cases d with
    | int_val n => simp at hbad
    | bytes bs => exact resolve_blob_ne_missingInputs _ _ _ hbad
    | pre_hex ds => exact resolve_blob_ne_missingInputs _ _ _ hbad
    | raw_hex ds => exact resolve_blob_ne_missingInputs _ _ _ hbad

/-- C8: get_safe_transaction_signers raises MissingInputsError exactly when
no transaction hash is supplied and at least one of call_data, nonce,
chain_id, safe_address is also missing; with a transaction hash, or with all
four ingredients, that error is never raised (whatever the externals and the
signatures input are). -/
theorem claim_C8_missing_inputs {SafeTx : Type}
    (recover : BinaryValue → Nat × Nat × Nat → List Nat)
    (decode_signatures : Option BinaryValue → List ParsedSig)
    (decode_transaction : BinaryValue → Nat → SafeTx)
    (hash_transaction : SafeTx → Nat → BinaryValue → BinaryValue)
    (signatures : Option SignaturesInput)
    (safe_transaction_hash : Option BinaryValue)
    (safe_transaction : Option SafeTx)
    (chain_id : Option Nat)
    (safe_address : Option BinaryValue)
    (call_data : Option BinaryValue)
    (nonce : Option Nat) :
    get_safe_transaction_signers recover decode_signatures decode_transaction
        hash_transaction signatures safe_transaction_hash safe_transaction
        chain_id safe_address call_data nonce = .error .missingInputs
      ↔ safe_transaction_hash = none ∧ (call_data = none ∨ nonce = none ∨
          chain_id = none ∨ safe_address = none) := by
  unfold get_safe_transaction_signers
  cases safe_transaction_hash with
  | some h => simp [core_ne_missingInputs]
  | none =>
      cases call_data <;> cases nonce <;> cases chain_id <;>
        cases safe_address <;> simp [core_ne_missingInputs]

/-- On a raw byte blob the initial convert of parse_safe_signatures is the
identity, so parsing is the record loop from the initial state. -/
theorem parse_safe_signatures_bytes (bs : List Nat) :
    parse_safe_signatures (.bytes bs) = parseLoop bs 0 [] [] := rfl

theorem take_65_append (r t : List Nat) (h : r.length = 65) :
    (r ++ t).take 65 = r := by
  rw [← h]
  exact List.take_left r t

theorem drop_65_append (r t : List Nat) (h : r.length = 65) :
    (r ++ t).drop 65 = t := by
  rw [← h]
  exact List.drop_left r t

theorem take_65_self (r : List Nat) (h : r.length = 65) : r.take 65 = r := by
  rw [← h, List.take_length]

theorem drop_65_self (r : List Nat) (h : r.length = 65) : r.drop 65 = [] := by
  rw [← h, List.drop_length]

/-- Classification of a record whose trailing byte is in the ecdsa range. -/
theorem classify_ecdsa (sig : List Nat) (hl : 27 ≤ sig.getLastD 0)
    (hh : sig.getLastD 0 ≤ 30) :
    classify_signature sig = .ok (.ecdsa (bytesToHex sig)
      (bytesToNat (sig.take 32)) (bytesToNat ((sig.drop 32).take 32))
      (sig.getLastD 0)) := by
  simp only [classify_signature]
  rw [if_pos (by omega)]

/-- Classification of a record whose trailing byte is zero. -/
theorem classify_eip1271_zero (sig : List Nat) (h0 : sig.getLastD 0 = 0) :
    classify_signature sig = .ok (.eip1271 (bytesToHex sig)
      (bytesToHex ((sig.take 32).drop ((sig.take 32).length - 20)))
      (bytesToNat ((sig.drop 32).take 32))) := by
  simp only [classify_signature]
  rw [if_neg (by omega), if_neg (by omega), if_pos h0]

/-- C2: the splitter consumes 65-byte records in order — any blob shorter
than 65 bytes fails immediately with TruncatedSignatureError, and a short
tail after a full in-line record fails the same way on the next iteration; a
130-byte blob of two ecdsa records yields exactly those two records (no
EIP-1271 offset is ever consulted); a blob whose first record is an EIP-1271
record with position 65 yields exactly that one in-line record, whatever
bytes follow, because the bytes consumed (65) have reached the smallest
discovered EIP-1271 position. -/
theorem claim_C2_splitter :
    (∀ blob : List Nat, blob.length < 65 →
      parse_safe_signatures (.bytes blob) = .error .truncatedSignature) ∧
    (∀ r1 rest : List Nat, r1.length = 65 →
      27 ≤ r1.getLastD 0 → r1.getLastD 0 ≤ 30 →
      0 < rest.length → rest.length < 65 →
      parse_safe_signatures (.bytes (r1 ++ rest))
        = .error .truncatedSignature) ∧
    (∀ r1 r2 : List Nat, r1.length = 65 → r2.length = 65 →
      27 ≤ r1.getLastD 0 → r1.getLastD 0 ≤ 30 →
      27 ≤ r2.getLastD 0 → r2.getLastD 0 ≤ 30 →
      parse_safe_signatures (.bytes (r1 ++ r2))
        = .ok [.ecdsa (bytesToHex r1) (bytesToNat (r1.take 32))
                 (bytesToNat ((r1.drop 32).take 32)) (r1.getLastD 0),
               .ecdsa (bytesToHex r2) (bytesToNat (r2.take 32))
                 (bytesToNat ((r2.drop 32).take 32)) (r2.getLastD 0)]) ∧
    (∀ first32 pos32 rest : List Nat,
      first32.length = 32 → pos32.length = 32 → bytesToNat pos32 = 65 →
      parse_safe_signatures (.bytes ((first32 ++ pos32 ++ [0]) ++ rest))
        = .ok [.eip1271 (bytesToHex (first32 ++ pos32 ++ [0]))
                 (bytesToHex (first32.drop 12)) 65]) := by
  refine ⟨?_, ?_, ?_, ?_⟩
  · intro blob hlen
    rw [parse_safe_signatures_bytes, parseLoop,
      dif_neg (by simp [List.length_take]; omega)]
  · intro r1 rest h1 hl hh hpos hlen
    rw [parse_safe_signatures_bytes, parseLoop,
      dif_pos (by rw [take_65_append r1 rest h1]; exact h1),
      take_65_append r1 rest h1, drop_65_append r1 rest h1]
    simp only [classify_ecdsa r1 hl hh]
    rw [if_neg (by omega)]
    simp only [updatePositions]
    rw [if_neg (by simp)]
    rw [parseLoop, dif_neg (by simp [List.length_take]; omega)]
  · intro r1 r2 h1 h2 hl1 hh1 hl2 hh2
    rw [parse_safe_signatures_bytes, parseLoop,
      dif_pos (by rw [take_65_append r1 r2 h1]; exact h1),
      take_65_append r1 r2 h1, drop_65_append r1 r2 h1]
    simp only [classify_ecdsa r1 hl1 hh1]
    rw [if_neg (by omega)]
    simp only [updatePositions]
    rw [if_neg (by simp)]
    rw [parseLoop, dif_pos (by rw [take_65_self r2 h2]; exact h2),
      take_65_self r2 h2, drop_65_self r2 h2]
    simp only [classify_ecdsa r2 hl2 hh2]
    simp
  · intro first32 pos32 rest h1 h2 hval
    have hsig : (first32 ++ pos32 ++ [0]).length = 65 := by
      simp [h1, h2]
    have hlast : (first32 ++ pos32 ++ [0]).getLastD 0 = 0 := by
      simp
    have htake : (first32 ++ pos32 ++ [0]).take 32 = first32 := by
      rw [List.append_assoc, ← h1]
      exact List.take_left first32 (pos32 ++ [0])
    have hdrop : (first32 ++ pos32 ++ [0]).drop 32 = pos32 ++ [0] := by
      rw [List.append_assoc, ← h1]
      exact List.drop_left first32 (pos32 ++ [0])
    have htake2 : (pos32 ++ [0]).take 32 = pos32 := by
      rw [← h2]
      exact List.take_left pos32 [0]
    rw [parse_safe_signatures_bytes, parseLoop,
      dif_pos (by rw [take_65_append _ rest hsig]; exact hsig),
      take_65_append _ rest hsig, drop_65_append _ rest hsig]
    rw [classify_eip1271_zero _ hlast, htake, hdrop, htake2, h1, hval]
    simp only [updatePositions, List.nil_append]
    by_cases hr : rest.length = 0
    · rw [if_pos hr]
    · have hcond : ([65] : List Nat) ≠ [] ∧ (0 + 1) * 65 ≥ listMin [65] :=
        ⟨by simp, by norm_num [listMin]⟩
      rw [if_neg hr, if_pos hcond]

/-- Witness for C2 at concrete blobs: two concrete ecdsa records parse to two
records, and a concrete EIP-1271 record with position 65 followed by seven
junk bytes parses to one record. -/
theorem claim_C2_splitter_witness :
    (∃ out, parse_safe_signatures
        (.bytes ((List.replicate 64 0 ++ [27]) ++ (List.replicate 64 0 ++ [28])))
        = .ok out ∧ out.length = 2) ∧
    (∃ out, parse_safe_signatures
        (.bytes ((List.replicate 32 7 ++ (List.replicate 31 0 ++ [65]) ++ [0])
          ++ List.replicate 7 9))
        = .ok out ∧ out.length = 1) := by
  constructor
  · exact ⟨_, claim_C2_splitter.2.2.1 (List.replicate 64 0 ++ [27])
      (List.replicate 64 0 ++ [28]) (by decide) (by decide) (by decide)
      (by decide) (by decide) (by decide), by decide⟩
  · exact ⟨_, claim_C2_splitter.2.2.2 (List.replicate 32 7)
      (List.replicate 31 0 ++ [65]) (List.replicate 7 9) (by decide)
      (by decide) (by decide), by decide⟩

end Ctc
